import Mathlib

/-!
Verification of the tennis-court booking worker (`src/worker/src/index.ts`).

The development shallowly embeds the worker's pure decision logic:

* JS string helpers (`toLowerCase`, `toUpperCase`, `includes`, `trim`,
  `split`, the time-normalisation regex replace) as functions on `List Char`
  and `String`;
* the time-slot availability check and error path of `book_and_request_sms`;
* the success/failure branches of `enter_sms_code_and_complete`;
* the session scan `getMCPSession`, the `/authenticate` handler, the KV
  booking-record helpers and `get_booking_history`;
* JS `Date` arithmetic (`getCorrectDate`) via Gregorian day-number
  conversion, so that `setFullYear`'s field-overflow normalisation
  (Feb 29 → Mar 1) is modelled faithfully;
* a cooperative small-step interleaving model of `MyMCP.init`'s
  single-in-flight browser acquisition, plus a solo-call functional
  projection of `init` for the freshness/staleness claims.

Machine integers of the source are JS doubles used as integers (timestamps,
day counts); they are modelled as `Nat`. All definitions are executable.
-/

namespace TennisWorker

/-! ### ASCII character helpers (JS `toLowerCase`/`toUpperCase`/`\d`)

The worker only ever manipulates ASCII identifiers, times and dates, so the
JS string methods are embedded at their ASCII meaning. -/

/-- JS `toLowerCase` on one ASCII character. -/
def jsToLower (c : Char) : Char :=
  if 65 ≤ c.toNat ∧ c.toNat ≤ 90 then Char.ofNat (c.toNat + 32) else c

/-- JS `toUpperCase` on one ASCII character. -/
def jsToUpper (c : Char) : Char :=
  if 97 ≤ c.toNat ∧ c.toNat ≤ 122 then Char.ofNat (c.toNat - 32) else c

/-- The regex class `\d` of `index.ts` line 497: an ASCII digit. -/
def isJsDigit (c : Char) : Bool := 48 ≤ c.toNat && c.toNat ≤ 57

/-- `sub` occurs at the head of `l`. -/
def leadsWith : List Char → List Char → Bool
  | [], _ => true
  | _ :: _, [] => false
  | c :: cs, h :: hs => (c == h) && leadsWith cs hs

/-- JS `String.prototype.includes`: `sub` occurs contiguously in `hay`. -/
def jsIncludes : List Char → List Char → Bool
  | hay, sub =>
    leadsWith sub hay ||
      match hay with
      | [] => false
      | _ :: hs => jsIncludes hs sub

/-- JS `replace(/\n/g, ', ')` (used to render the available-times list in
the error message of `book_and_request_sms`, line 504). -/
def replaceNewlines : List Char → List Char
  | [] => []
  | c :: cs => (if c = '\n' then [',', ' '] else [c]) ++ replaceNewlines cs

/-- Lower-case a whole string (JS `toLowerCase`, ASCII). -/
def lowerString (s : String) : String := String.mk (s.data.map jsToLower)

/-- JS `String.prototype.split(sep)` for a one-character separator. -/
def splitOnChar (sep : Char) : List Char → List (List Char)
  | [] => [[]]
  | c :: cs =>
    if c = sep then [] :: splitOnChar sep cs
    else
      match splitOnChar sep cs with
      | [] => [[c]]
      | g :: gs => (c :: g) :: gs

/-- JS `String.prototype.trim` (the worker trims only spaces around
configured emails). -/
def trimChars (l : List Char) : List Char :=
  ((l.dropWhile fun c => c == ' ').reverse.dropWhile fun c => c == ' ').reverse

/-! ### Time normalisation (`book_and_request_sms`, index.ts lines 494-499)

```
let normalizedTime = time;
if (time.toLowerCase().includes('pm') || time.toLowerCase().includes('am')) {
  if (!time.includes(':')) {
    normalizedTime = time.replace(/(\d+)(pm|am)/i, '$1:00 $2').toUpperCase();
  }
}
```
-/

/-- The suffix alternative `(pm|am)` of the regex, case-insensitive: if `l`
starts with two characters whose lower case reads `pm` or `am`, return them
and the rest. -/
def matchAmPm : List Char → Option (List Char × List Char)
  | c1 :: c2 :: rest =>
    if (jsToLower c1 = 'p' ∨ jsToLower c1 = 'a') ∧ jsToLower c2 = 'm' then
      some ([c1, c2], rest)
    else none
  | _ => none

/-- One-pass `replace(/(\d+)(pm|am)/i, '$1:00 $2')`: at the first digit `c`,
the whole maximal digit run through `c` is taken greedily; if the characters
after the run read `pm`/`am` (case insensitive) the replacement `":00 "` is
spliced in between and the scan stops (first match only), otherwise the scan
moves on.  (A shorter prefix of a maximal digit run is followed by a digit,
never by `a`/`p`, so regex backtracking cannot produce another match, and the
rest after the run is the same from any position inside the run, so moving
one character forward on failure equals skipping the run; this function
therefore computes exactly the regex engine's one-replacement result.) -/
def replaceTime : List Char → List Char
  | [] => []
  | c :: cs =>
    if isJsDigit c then
      match matchAmPm (List.dropWhile isJsDigit (c :: cs)) with
      | some (suf, rest2) =>
          List.takeWhile isJsDigit (c :: cs) ++ ':' :: '0' :: '0' :: ' ' :: (suf ++ rest2)
      | none => c :: replaceTime cs
    else c :: replaceTime cs

/-- Lines 494-499 of index.ts: the normalised requested time. -/
def normalizeTime (s : List Char) : List Char :=
  if (jsIncludes (s.map jsToLower) ("pm".data) || jsIncludes (s.map jsToLower) ("am".data))
      && !(jsIncludes s ([':'])) then
    (replaceTime s).map jsToUpper
  else s

/-! ### The slot check and failure path of `book_and_request_sms`
(index.ts lines 441-555)

Steps 2-4 (login, court, date) are opaque page automation; their outcome is
an `Except` parameter.  Step 5 reads the slot text and throws when the
normalised time is not a substring (line 503-505).  The `catch` handler
(lines 547-555) closes the page and returns `❌ Booking failed: <message>`.
On success the tool returns the SMS instructions and leaves the page open at
the verification step. -/

/-- The tool's textual reply, abstracted to its branch: the SMS-requested
instructions (line 528-545) or the `❌ Booking failed:` message of the catch
handler (line 549-554). -/
inductive BookMsg
  | smsRequested (normalizedTime : List Char)
  | failed (text : List Char)
deriving DecidableEq, Repr

/-- Observable outcome of one `book_and_request_sms` call: whether the
automation page is still open when the tool returns, the reply, and whether
the slot-selection step (step 6, line 508) was reached. -/
structure BookResult where
  pageOpen : Bool
  msg : BookMsg
  slotStepRun : Bool
deriving DecidableEq, Repr

/-- `book_and_request_sms` from the start of the `try` block: `pre` is the
outcome of the page automation before the availability check (connect,
login, court and date selection, the slot-text wait — the code's steps 1-5
up to the read), `timesText` the innerText read at step 5, `time` the
requested time, and `post` the outcome of the reservation steps after the
check (slot click, duration, participant, SMS request, the `totp` wait —
the code's steps 6-9).  An exception anywhere lands in the one catch
handler, which closes the page (`if (page) await page.close()`) and wraps
the raw error text. -/
def bookRun (pre : Except (List Char) Unit) (timesText time : List Char)
    (post : Except (List Char) Unit) : BookResult :=
  match pre with
  | .error e => ⟨false, .failed ("❌ Booking failed: ".data ++ e), false⟩
  | .ok _ =>
    if jsIncludes timesText (normalizeTime time) then
      match post with
      | .ok _ => ⟨true, .smsRequested (normalizeTime time), true⟩
      | .error e => ⟨false, .failed ("❌ Booking failed: ".data ++ e), true⟩
    else
      ⟨false,
        .failed ("❌ Booking failed: ".data ++ normalizeTime time
          ++ " not available. Available: ".data ++ replaceNewlines timesText),
        false⟩

/-! ### Booking records (`saveBookingToKV`, `get_booking_history`)

The KV namespace `booking:<date>` is modelled as a function from key strings
to stored records. -/

/-- The JSON blob `saveBookingToKV` writes (index.ts lines 232-251). -/
structure BookingRecord where
  court : String
  time : String
  date : String
  userEmail : String
  timestamp : Nat
  status : String
deriving DecidableEq, Repr

/-- `saveBookingToKV`: upsert under key `booking:<date>` with
`status: 'completed'` (index.ts lines 232-251).  Defined in the source but
never invoked by any tool. -/
def saveBookingToKV (kv : String → Option BookingRecord)
    (court time date userEmail : String) (now : Nat) :
    String → Option BookingRecord :=
  fun k =>
    if k = "booking:" ++ date then some ⟨court, time, date, userEmail, now, "completed"⟩
    else kv k

/-! ### `enter_sms_code_and_complete` (index.ts lines 559-690)

The page probe, the `Confirm` click and the 3-minute wait for the
`You're all set!` indicator are opaque automation; their outcome is a
parameter.  What matters for the claims is what each branch returns and
what it writes to KV. -/

/-- Outcome of the wait for the success indicator (lines 638-678). -/
inductive VerifyOutcome
  | allSet
  | reservedConflict
  | timeout
deriving DecidableEq, Repr

/-- The tool's reply, abstracted to its branch (the source's literal texts at
lines 642-651, 662-667, 673-678, 602-615). -/
inductive CompleteMsg
  | completed (email code : String)
  | alreadyReserved
  | timeoutCheckManually
  | noVerificationPage
deriving DecidableEq, Repr

/-- `enter_sms_code_and_complete` after a successful auth check: `pageFound`
is the result of the open-page probe for `input[id="totp"]`, `verify` the
outcome of the wait for `You're all set!`.  Returns the reply and the
booking KV as left behind.  No branch writes to KV — `saveBookingToKV`
exists but line 639-652 only returns the confirmation text. -/
def enter_sms_code_and_complete (email code : String) (pageFound : Bool)
    (verify : VerifyOutcome) (kv : String → Option BookingRecord) :
    CompleteMsg × (String → Option BookingRecord) :=
  if pageFound = false then (.noVerificationPage, kv)
  else
    match verify with
    | .allSet => (.completed email code, kv)
    | .reservedConflict => (.alreadyReserved, kv)
    | .timeout => (.timeoutCheckManually, kv)

/-! ### Gregorian day-number conversion (JS `Date` arithmetic)

`getCorrectDate` and `get_booking_history` do calendar arithmetic through
JS `Date` objects (UTC in the Workers runtime).  A civil date is a `Ymd`;
`toDays`/`fromDays` convert to/from a linear day count (civil-from-days /
days-from-civil), which models ms-since-epoch division by 86400000 and in
particular models `setFullYear`'s field-overflow normalisation
(2025-02-29 ↦ 2025-03-01).  Valid for years ≥ 1. -/

structure Ymd where
  y : Nat
  m : Nat
  d : Nat
deriving DecidableEq, Repr

def isLeapY (y : Nat) : Bool := (y % 4 == 0 && y % 100 != 0) || y % 400 == 0

def daysInMonth (y m : Nat) : Nat :=
  if m = 2 then (if isLeapY y then 29 else 28)
  else if m = 4 ∨ m = 6 ∨ m = 9 ∨ m = 11 then 30 else 31

/-- Day number of year `y`, month `m`, day `d` (months 1-12; `d` may
overflow the month, matching JS field normalisation). -/
def toDays (y m d : Nat) : Nat :=
  let yy := if m ≤ 2 then y - 1 else y
  let era := yy / 400
  let yoe := yy % 400
  let mp := (m + 9) % 12
  let doy := (153 * mp + 2) / 5 + (d - 1)
  let doe := yoe * 365 + yoe / 4 - yoe / 100 + doy
  era * 146097 + doe

/-- The civil date of a day number. -/
def fromDays (z : Nat) : Ymd :=
  let era := z / 146097
  let doe := z % 146097
  let yoe := (doe - doe / 1460 + doe / 36524 - doe / 146096) / 365
  let doy := doe - (365 * yoe + yoe / 4 - yoe / 100)
  let mp := (5 * doy + 2) / 153
  let d := doy - (153 * mp + 2) / 5 + 1
  let m := if mp < 10 then mp + 3 else mp - 9
  ⟨(if m ≤ 2 then era * 400 + yoe + 1 else era * 400 + yoe), m, d⟩

/-- JS `Date.prototype.setFullYear(yy)`: keep month and day-of-month fields
and renormalise (Feb 29 of a leap year becomes Mar 1 in a non-leap year). -/
def jsSetFullYear (x : Ymd) (yy : Nat) : Ymd := fromDays (toDays yy x.m x.d)

def pad2 (n : Nat) : String := if n < 10 then "0" ++ toString n else toString n

/-- The date part of JS `toISOString().split('T')[0]`: `YYYY-MM-DD`
(years of this application are four-digit). -/
def isoDate (x : Ymd) : String := toString x.y ++ "-" ++ pad2 x.m ++ "-" ++ pad2 x.d

/-- Decimal value of a digit string. -/
def digitsToNat (l : List Char) : Nat := l.foldl (fun acc c => acc * 10 + (c.toNat - 48)) 0

/-- JS `new Date("YYYY-MM-DD")` for the ISO dashed format: strictly
validated (four-digit year, zero-padded month/day, real calendar date);
anything else is an Invalid Date, on which `toISOString` throws. -/
def parseDate (s : String) : Option Ymd :=
  match splitOnChar '-' s.data with
  | [ys, ms, ds] =>
    if ys.length = 4 ∧ ms.length = 2 ∧ ds.length = 2
        ∧ ys.all isJsDigit ∧ ms.all isJsDigit ∧ ds.all isJsDigit then
      let y := digitsToNat ys
      let m := digitsToNat ms
      let d := digitsToNat ds
      if 1 ≤ m ∧ m ≤ 12 ∧ 1 ≤ d ∧ d ≤ daysInMonth y m then some ⟨y, m, d⟩ else none
    else none
  | _ => none

/-- `getCorrectDate` (index.ts lines 193-219), with the runtime's current
date passed in as `today`.  `none` as a result models `toISOString`
throwing on an Invalid Date. -/
def getCorrectDate (today : Ymd) (dateInput : Option String) : Option String :=
  let t := jsSetFullYear today 2025
  match dateInput with
  | none => some (isoDate (fromDays (toDays t.y t.m t.d + 1)))
  | some s =>
    if lowerString s = "today" then some (isoDate t)
    else if lowerString s = "tomorrow" then some (isoDate (fromDays (toDays t.y t.m t.d + 1)))
    else
      match parseDate s with
      | none => none
      | some p =>
        some (isoDate (if p.y < 2025 then jsSetFullYear p 2025 else p))

/-! ### `get_booking_history` (index.ts lines 740-813) -/

/-- The key probed on iteration `i`: `booking:` + the ISO date `i` days
before today. -/
def bookingKey (todayN i : Nat) : String := "booking:" ++ isoDate (fromDays (todayN - i))

/-- One line of the history reply (date, court, time, status of a record
whose `userEmail` matched). -/
structure HistoryEntry where
  date : String
  court : String
  time : String
  status : String
deriving DecidableEq, Repr

/-- The loop of `get_booking_history` (lines 763-787): for `i` in
`0..days-1` look up `booking:<today - i days>` and keep the record only if
its `userEmail` equals the authenticated user's email.  `todayN` is today's
day number (the source uses `new Date()`). -/
def get_booking_history (kv : String → Option BookingRecord) (todayN days : Nat)
    (email : String) : List HistoryEntry :=
  (List.range days).filterMap fun i =>
    match kv (bookingKey todayN i) with
    | none => none
    | some b =>
      if b.userEmail = email then
        some ⟨isoDate (fromDays (todayN - i)), b.court, b.time, b.status⟩
      else none

/-! ### MCP sessions: `storeMCPSession`, `getMCPSession`, `/authenticate`
(index.ts lines 30-42, 113-130, 935-975) -/

/-- The JSON blob `storeMCPSession` writes under `mcp_session:<userId>`. -/
structure SessionData where
  id : String
  email : String
  verified : Bool
  timestamp : Nat
deriving DecidableEq, Repr

/-- `getMCPSession` (lines 113-130): iterate the listed `mcp_session:` keys
(KV lists keys in lexicographic name order; `entries` is that listing) and
return the first session whose age is under one hour. -/
def getMCPSession : List (String × SessionData) → Nat → Option SessionData
  | [], _ => none
  | (_, sd) :: rest, now =>
    if now - sd.timestamp < 3600000 then some sd else getMCPSession rest now

/-- The parsed body of a `POST /authenticate` request. -/
structure AuthBody where
  userId : String
  email : String
deriving DecidableEq, Repr

/-- The allow-list check (lines 943-945): split `AUTHORIZED_USER_EMAILS` on
commas, trim and lower-case each entry. -/
def authorizedEmails (cfg : String) : List String :=
  (splitOnChar ',' cfg.data).map fun e => String.mk ((trimChars e).map jsToLower)

/-- `storeMCPSession` (lines 30-42): put the session blob under
`mcp_session:<userId>` (the source also sets a 1-hour KV TTL, re-checked at
read time by `getMCPSession`). -/
def storeMCPSession (kv : String → Option SessionData) (userId email : String)
    (now : Nat) : String → Option SessionData :=
  fun k => if k = "mcp_session:" ++ userId then some ⟨userId, email, true, now⟩ else kv k

/-- The `POST /authenticate` handler (lines 935-975): `body` is the JSON
parse result (`.error` when the body is malformed or a field access throws).
Returns HTTP status, response text, and the session KV as left behind. -/
def authenticatePost (cfg : String) (body : Except String AuthBody)
    (kv : String → Option SessionData) (now : Nat) :
    Nat × String × (String → Option SessionData) :=
  match body with
  | .error e => (500, "Authentication error: " ++ e, kv)
  | .ok u =>
    if (authorizedEmails cfg).contains (lowerString u.email) then
      (200, "Authentication successful", storeMCPSession kv u.userId u.email now)
    else
      (403, "Unauthorized user: " ++ u.email, kv)

/-! ### `MyMCP.init`: solo-call functional projection (index.ts lines 133-173)

For the freshness claims (C3) a single non-overlapping call is enough; the
outcomes of `browser.close()` and `launch()` are parameters.  The triple
returned is (browser state, the call's outcome, how many `launch` attempts
ran). -/

def BROWSER_TIMEOUT : Nat := 5 * 60 * 1000

/-- `this.browser` / `this.lastBrowserInit`. -/
structure BrowserState where
  browser : Option Nat
  lastBrowserInit : Nat
deriving DecidableEq, Repr

inductive CloseResult
  | ok
  | err (e : Nat)
deriving DecidableEq, Repr

inductive LaunchResult
  | ok (handle : Nat)
  | err (e : Nat)
deriving DecidableEq, Repr

/-- One non-overlapping `init()` call.  Fresh session: return unchanged.
Otherwise the async body runs: close the old handle if present (a close
error is caught by the `catch`, which nulls the browser and rethrows —
line 162-165 — so no launch happens), then launch; a launch failure nulls
the browser and rethrows; success stores the handle and stamps
`lastBrowserInit` with the `now` captured at entry (line 139, 160). -/
def initSolo (s : BrowserState) (now : Nat) (closeRes : CloseResult)
    (launchRes : LaunchResult) : BrowserState × Except Nat Unit × Nat :=
  match s.browser with
  | some _ =>
    if now - s.lastBrowserInit < BROWSER_TIMEOUT then (s, .ok (), 0)
    else
      match closeRes with
      | .err e => (⟨none, s.lastBrowserInit⟩, .error e, 0)
      | .ok =>
        match launchRes with
        | .ok h2 => (⟨some h2, now⟩, .ok (), 1)
        | .err e => (⟨none, s.lastBrowserInit⟩, .error e, 1)
  | none =>
    match launchRes with
    | .ok h2 => (⟨some h2, now⟩, .ok (), 1)
    | .err e => (⟨none, s.lastBrowserInit⟩, .error e, 1)

end TennisWorker

/-! ### Cooperative interleaving model of `MyMCP.init` (index.ts 133-173)

JS on a single Durable Object instance is cooperatively scheduled: code
between two `await`s runs atomically.  Each `Step` constructor below is one
such synchronous segment of `init()`; the environment's choices (launch
success/failure and handle, close failure, the clock) are constructor
arguments.  The missing-binding check (line 155-157) throws before `launch`
and is folded into the launch-failure step, a sound over-approximation for
the safety properties proved here.

A caller that finds `isInitializing` set awaits the current `initPromise`
(`awaitingJoin`); the caller that starts the IIFE runs it (`runningClose`,
`runningLaunch`) and then awaits its own promise (`awaitingOwn`).  When the
IIFE finishes, the `finally` clears the flag and the promise field and the
promise is resolved; awaiting threads later resume and observe the
resolution. -/

namespace TennisWorker.InitModel

/-- Resolution of one acquisition attempt's promise: the launched handle, or
the rethrown error. -/
inductive Outcome
  | ok (handle : Nat)
  | err (e : Nat)
deriving DecidableEq, Repr

/-- Program counter of one `init()` caller. `done none` is the fresh-session
early return; `done (some (p, o))` records which promise the caller awaited
and the outcome it observed. -/
inductive TPhase
  | start
  | awaitingJoin (p : Nat)
  | runningClose (p : Nat) (t0 : Nat) (oldb : Nat)
  | runningLaunch (p : Nat) (t0 : Nat)
  | awaitingOwn (p : Nat)
  | done (r : Option (Nat × Outcome))
deriving DecidableEq, Repr

/-- The Durable Object's fields plus the promise table and the callers. -/
structure GState where
  browser : Option Nat
  lastInit : Nat
  now : Nat
  isInitializing : Bool
  initPromise : Option Nat
  resolved : Nat → Option Outcome
  nextId : Nat
  threads : List TPhase

/-- Thread `i`'s phase. -/
abbrev tAt (s : GState) (i : Nat) : Option TPhase := s.threads[i]?

/-- The promise of a thread that is inside the acquisition IIFE. -/
def isRunning : TPhase → Option Nat
  | .runningClose p _ _ => some p
  | .runningLaunch p _ => some p
  | _ => none

/-- Any promise id a phase refers to. -/
def promOf : TPhase → Option Nat
  | .awaitingJoin p => some p
  | .runningClose p _ _ => some p
  | .runningLaunch p _ => some p
  | .awaitingOwn p => some p
  | .done (some (p, _)) => some p
  | _ => none

/-- Record the resolution of promise `p`. -/
def rUpd (r : Nat → Option Outcome) (p : Nat) (o : Outcome) : Nat → Option Outcome :=
  fun q => if q = p then some o else r q

/-- One synchronous segment of some caller, or a clock advance. -/
inductive Step : GState → GState → Prop
  | startJoin (s : GState) (i p : Nat)
      (ht : tAt s i = some .start) (hf : s.isInitializing = true)
      (hp : s.initPromise = some p) :
      Step s { s with threads := s.threads.set i (.awaitingJoin p) }
  | startCached (s : GState) (i b : Nat)
      (ht : tAt s i = some .start) (hf : s.isInitializing = false)
      (hb : s.browser = some b) (hfresh : s.now - s.lastInit < TennisWorker.BROWSER_TIMEOUT) :
      Step s { s with threads := s.threads.set i (.done none) }
  | startAcquireClose (s : GState) (i b : Nat)
      (ht : tAt s i = some .start) (hf : s.isInitializing = false)
      (hb : s.browser = some b)
      (hstale : ¬ s.now - s.lastInit < TennisWorker.BROWSER_TIMEOUT) :
      Step s { s with isInitializing := true, initPromise := some s.nextId,
                      nextId := s.nextId + 1,
                      threads := s.threads.set i (.runningClose s.nextId s.now b) }
  | startAcquireNew (s : GState) (i : Nat)
      (ht : tAt s i = some .start) (hf : s.isInitializing = false)
      (hb : s.browser = none) :
      Step s { s with isInitializing := true, initPromise := some s.nextId,
                      nextId := s.nextId + 1,
                      threads := s.threads.set i (.runningLaunch s.nextId s.now) }
  | closeOk (s : GState) (i p t0 b : Nat)
      (ht : tAt s i = some (.runningClose p t0 b)) :
      Step s { s with browser := none, threads := s.threads.set i (.runningLaunch p t0) }
  | closeErr (s : GState) (i p t0 b e : Nat)
      (ht : tAt s i = some (.runningClose p t0 b)) :
      Step s { s with browser := none, isInitializing := false, initPromise := none,
                      resolved := rUpd s.resolved p (.err e),
                      threads := s.threads.set i (.awaitingOwn p) }
  | launchOk (s : GState) (i p t0 h : Nat)
      (ht : tAt s i = some (.runningLaunch p t0)) :
      Step s { s with browser := some h, lastInit := t0, isInitializing := false,
                      initPromise := none,
                      resolved := rUpd s.resolved p (.ok h),
                      threads := s.threads.set i (.awaitingOwn p) }
  | launchErr (s : GState) (i p t0 e : Nat)
      (ht : tAt s i = some (.runningLaunch p t0)) :
      Step s { s with browser := none, isInitializing := false, initPromise := none,
                      resolved := rUpd s.resolved p (.err e),
                      threads := s.threads.set i (.awaitingOwn p) }
  | resumeOwn (s : GState) (i p : Nat) (o : Outcome)
      (ht : tAt s i = some (.awaitingOwn p)) (hr : s.resolved p = some o) :
      Step s { s with threads := s.threads.set i (.done (some (p, o))) }
  | resumeJoin (s : GState) (i p : Nat) (o : Outcome)
      (ht : tAt s i = some (.awaitingJoin p)) (hr : s.resolved p = some o) :
      Step s { s with threads := s.threads.set i (.done (some (p, o))) }
  | tick (s : GState) (n : Nat) (hn : s.now ≤ n) :
      Step s { s with now := n }

/-- Interleavings: the reflexive-transitive closure of `Step`. -/
def Reachable : GState → GState → Prop := Relation.ReflTransGen Step

/-- The Durable Object as constructed, with `n` pending callers. -/
def mkInit (n now0 : Nat) : GState :=
  ⟨none, 0, now0, false, none, fun _ => none, 0, List.replicate n .start⟩

/-- The inductive invariant: at most one caller inside the IIFE (and the
flag reflects it), the running attempt's promise is current and unresolved,
an observed outcome is its promise's recorded resolution, and all promise
ids are below `nextId`. -/
structure Inv (s : GState) : Prop where
  excl : ∀ i j ti tj pi pj, tAt s i = some ti → tAt s j = some tj →
    isRunning ti = some pi → isRunning tj = some pj → i = j
  flagIff : s.isInitializing = true ↔ ∃ i ti p, tAt s i = some ti ∧ isRunning ti = some p
  runProm : ∀ i ti p, tAt s i = some ti → isRunning ti = some p →
    s.initPromise = some p ∧ s.resolved p = none
  doneRes : ∀ i p o, tAt s i = some (.done (some (p, o))) → s.resolved p = some o
  resLt : ∀ p o, s.resolved p = some o → p < s.nextId
  phaseLt : ∀ i ti p, tAt s i = some ti → promOf ti = some p → p < s.nextId
  ipLt : ∀ p, s.initPromise = some p → p < s.nextId

end TennisWorker.InitModel

namespace TennisWorker

/-! ### Concrete inputs used by counterexamples, instances and witnesses -/

/-- Two stored sessions, listed in key order: the lexicographically first
key holds the older timestamp. -/
def cxOld : SessionData := ⟨"u-old", "old@x.com", true, 100⟩

def cxNew : SessionData := ⟨"u-new", "new@x.com", true, 200⟩

def cxSessions : List (String × SessionData) :=
  [("mcp_session:a", cxOld), ("mcp_session:b", cxNew)]

/-- The spec's history scenario: a booking for 2025-07-20 by `a@b.com` and
one for 2025-07-21 by `c@d.com`, both saved through `saveBookingToKV`. -/
def kvHistory : String → Option BookingRecord :=
  saveBookingToKV
    (saveBookingToKV (fun _ => none) "McLaren" "9:00 AM" "2025-07-21" "c@d.com" 2000)
    "DuPont" "8:00 AM" "2025-07-20" "a@b.com" 1000

end TennisWorker

namespace TennisWorker.InitModel

/-- Final state of the two-caller scenario: caller 0 acquires (promise 0,
handle 7), caller 1 joins the in-flight attempt; both observe `ok 7`. -/
def sFinal : GState :=
  ⟨some 7, 100, 100, false, none, rUpd (fun _ => none) 0 (.ok 7), 1,
    [.done (some (0, .ok 7)), .done (some (0, .ok 7))]⟩

end TennisWorker.InitModel

/-! ## Theorems -/

namespace TennisWorker

/-! ### C1 — completion does not persist a booking record -/

/-- Claim C1: the spec says a successful `enter_sms_code_and_complete`
(`You're all set!` observed) persists a `BookingRecord` under
`booking:<date>`.  The code returns the confirmation but writes nothing:
the booking KV after the success branch is exactly the KV before it, so no
`booking:` key is ever created (`saveBookingToKV` is defined yet never
called).  This theorem documents the divergence. -/
theorem c1_completion_does_not_persist :
    (∀ email code kv, enter_sms_code_and_complete email code true .allSet kv =
      (.completed email code, kv)) ∧
    (∀ d : String,
      (enter_sms_code_and_complete "a@b.com" "123456" true .allSet (fun _ => none)).2
        ("booking:" ++ d) = none) :=
  ⟨fun _ _ _ => rfl, fun _ => rfl⟩

/-! ### C3 — freshness window of `init` -/

/-- Claim C3 as stated is false: with a stale session, a failing
`browser.close()` propagates its error out of `init` (the `catch` rethrows,
line 162-165) and the launch is never attempted — the close is not
best-effort and no re-acquisition happens on that call. -/
theorem c3_counterexample :
    initSolo ⟨some 5, 0⟩ 300000 (.err 3) (.ok 7) = (⟨none, 0⟩, .error 3, 0) ∧
    (initSolo ⟨some 5, 0⟩ 300000 (.err 3) (.ok 7)).2.2 ≠ 1 :=
  ⟨rfl, by decide⟩

/-- Claim C3 (amended): a session younger than the 5-minute window is
returned unchanged with no launch; a stale session first gets its old
handle closed — if the close succeeds exactly one launch attempt runs on
that call, and if the close throws, the error propagates as the call's
failure and no launch occurs. -/
theorem c3_freshness_reacquire :
    (∀ s now b cr lr, s.browser = some b →
        now - s.lastBrowserInit < BROWSER_TIMEOUT →
        initSolo s now cr lr = (s, .ok (), 0)) ∧
    (∀ s now b lr, s.browser = some b →
        ¬ now - s.lastBrowserInit < BROWSER_TIMEOUT →
        (initSolo s now .ok lr).2.2 = 1) ∧
    (∀ s now b e lr, s.browser = some b →
        ¬ now - s.lastBrowserInit < BROWSER_TIMEOUT →
        initSolo s now (.err e) lr = (⟨none, s.lastBrowserInit⟩, .error e, 0)) := by
  refine ⟨?_, ?_, ?_⟩
  · rintro ⟨br, last⟩ now b cr lr hb hfresh
    cases hb
    simp [initSolo, hfresh]
  · rintro ⟨br, last⟩ now b lr hb hstale
    cases hb
    cases lr <;> simp [initSolo, hstale]
  · rintro ⟨br, last⟩ now b e lr hb hstale
    cases hb
    simp [initSolo, hstale]

/-- Witness for C3: a fresh session (age 1 ms) is returned unchanged and no
launch runs. -/
theorem c3_freshness_reacquire_witness :
    initSolo ⟨some 5, 0⟩ 1 .ok (.ok 9) = (⟨some 5, 0⟩, .ok (), 0) :=
  c3_freshness_reacquire.1 ⟨some 5, 0⟩ 1 5 .ok (.ok 9) rfl (by decide)

/-! ### C4 — unavailable requested time fails before slot selection -/

/-- Claim C4: when the normalised requested time is not a substring of the
slot text read at step 5, `book_and_request_sms` throws
`<time> not available. Available: <times>`; the catch returns that text
(with the `❌ Booking failed:` prefix) and the slot-selection step is never
reached.  In particular `9:00 PM` against `8:00 AM\n10:00 AM` fails this
way. -/
theorem c4_unavailable_time_fails :
    (∀ timesText time post, jsIncludes timesText (normalizeTime time) = false →
        bookRun (.ok ()) timesText time post =
          ⟨false,
            .failed ("❌ Booking failed: ".data ++ normalizeTime time
              ++ " not available. Available: ".data ++ replaceNewlines timesText),
            false⟩) ∧
    bookRun (.ok ()) ("8:00 AM\n10:00 AM".data) ("9:00 PM".data) (.ok ()) =
      ⟨false,
        .failed ("❌ Booking failed: 9:00 PM not available. Available: 8:00 AM, 10:00 AM".data),
        false⟩ := by
  constructor
  · intro timesText time post h
    simp [bookRun, h]
  · decide

/-- Witness for C4: `2pm` (normalised `2:00 PM`) against a slot read with no
free times. -/
theorem c4_unavailable_time_fails_witness :
    bookRun (.ok ()) ("No free sessions".data) ("2pm".data) (.ok ()) =
      ⟨false,
        .failed ("❌ Booking failed: ".data ++ normalizeTime ("2pm".data)
          ++ " not available. Available: ".data ++ replaceNewlines ("No free sessions".data)),
        false⟩ :=
  c4_unavailable_time_fails.1 ("No free sessions".data) ("2pm".data) (.ok ()) (by decide)

/-! ### C6 — an exception during steps 2-5 closes the page -/

/-- Claim C6 as stated is false: the catch handler of
`book_and_request_sms` runs `if (page) await page.close()` (line 548), so
after an exception in steps 2-5 the automation page is closed, not left
open for diagnosis. -/
theorem c6_counterexample :
    (bookRun (.error ("boom".data)) ("8:00 AM".data) ("2pm".data) (.ok ())).pageOpen
      = false := by
  decide

/-- Claim C6 (amended): any exception during booking steps 2-5 — whether
before the availability check or during the reservation steps after it —
aborts the attempt, the catch handler closes the automation page, and the
raw error text is returned to the caller wrapped as
`❌ Booking failed: <error>`; an exception before the check additionally
means no slot-selection step ever runs. -/
theorem c6_error_closes_page :
    (∀ e timesText time post, bookRun (.error e) timesText time post =
        ⟨false, .failed ("❌ Booking failed: ".data ++ e), false⟩) ∧
    (∀ e timesText time, jsIncludes timesText (normalizeTime time) = true →
        bookRun (.ok ()) timesText time (.error e) =
          ⟨false, .failed ("❌ Booking failed: ".data ++ e), true⟩) := by
  constructor
  · intro e timesText time post
    rfl
  · intro e timesText time h
    simp [bookRun, h]

/-- Witness for C6: an error while reserving the available `8:00 AM` slot
closes the page and surfaces the wrapped error text. -/
theorem c6_error_closes_page_witness :
    bookRun (.ok ()) ("8:00 AM\n10:00 AM".data) ("8:00 AM".data) (.error ("boom".data)) =
      ⟨false, .failed ("❌ Booking failed: ".data ++ "boom".data), true⟩ :=
  c6_error_closes_page.2 ("boom".data) ("8:00 AM\n10:00 AM".data) ("8:00 AM".data)
    (by decide)

/-! ### C5 — the session lookup returns the first fresh record, not the
most recent one -/

/-- `getMCPSession` is the first-fresh scan over the listed sessions. -/
theorem getMCPSession_eq_find (l : List (String × SessionData)) (now : Nat) :
    getMCPSession l now =
      (l.find? fun e => decide (now - e.2.timestamp < 3600000)).map Prod.snd := by
  induction l with
  | nil => rfl
  | cons a rest ih =>
    obtain ⟨k, sd⟩ := a
    by_cases h : now - sd.timestamp < 3600000
    · simp [getMCPSession, h, List.find?_cons]
    · simp [getMCPSession, h, List.find?_cons, ih]

/-- Claim C5 as stated is false: with the lexicographically first key
holding the older fresh record (timestamp 100) and a later key the newer
one (timestamp 200, also fresh), `getMCPSession` returns the older record,
not the most recent fresh one. -/
theorem c5_counterexample :
    getMCPSession cxSessions 200 = some cxOld ∧
    getMCPSession cxSessions 200 ≠ some cxNew ∧
    cxOld.timestamp < cxNew.timestamp ∧
    200 - cxNew.timestamp < 3600000 := by
  decide

/-- Claim C5 (amended): the lookup scans the stored records in key-list
order and returns the first one whose age is strictly under the 1-hour TTL
(not necessarily the most recent); any returned record is fresh, so an
expired record is never returned, and when no fresh record exists the scan
returns `none`. -/
theorem c5_first_fresh :
    (∀ l now, getMCPSession l now =
        (l.find? fun e => decide (now - e.2.timestamp < 3600000)).map Prod.snd) ∧
    (∀ l now sd, getMCPSession l now = some sd → now - sd.timestamp < 3600000) := by
  refine ⟨getMCPSession_eq_find, ?_⟩
  intro l now sd h
  rw [getMCPSession_eq_find] at h
  obtain ⟨a, hfind, hsnd⟩ := Option.map_eq_some'.mp h
  subst hsnd
  have hp := List.find?_some hfind
  simpa using hp

/-- Witness for C5: the record returned in the counterexample store is
fresh. -/
theorem c5_first_fresh_witness : 200 - cxOld.timestamp < 3600000 :=
  c5_first_fresh.2 cxSessions 200 cxOld (by decide)

/-! ### C9 — the `/authenticate` endpoint -/

/-- Claim C9: an allow-listed email gets 200 with opaque success text and a
stored session under `mcp_session:<userId>`; a non-listed email gets 403
with a message naming it and the store unchanged; a malformed or throwing
request gets 500 with the store unchanged. -/
theorem c9_authenticate_endpoint :
    (∀ cfg u kv now, (authorizedEmails cfg).contains (lowerString u.email) = true →
        authenticatePost cfg (.ok u) kv now =
          (200, "Authentication successful", storeMCPSession kv u.userId u.email now) ∧
        storeMCPSession kv u.userId u.email now ("mcp_session:" ++ u.userId) =
          some ⟨u.userId, u.email, true, now⟩) ∧
    (∀ cfg u kv now, (authorizedEmails cfg).contains (lowerString u.email) = false →
        authenticatePost cfg (.ok u) kv now = (403, "Unauthorized user: " ++ u.email, kv)) ∧
    (∀ cfg e kv now,
        authenticatePost cfg (.error e) kv now = (500, "Authentication error: " ++ e, kv)) := by
  refine ⟨?_, ?_, ?_⟩
  · intro cfg u kv now h
    have h' : lowerString u.email ∈ authorizedEmails cfg := by simpa using h
    exact ⟨by simp [authenticatePost, h'], by simp [storeMCPSession]⟩
  · intro cfg u kv now h
    have h' : lowerString u.email ∉ authorizedEmails cfg := by simpa using h
    simp [authenticatePost, h']
  · intro cfg e kv now
    rfl

/-- Witness for C9: `A@B.com` matches the configured
`"a@b.com, X@Y.com"` allow-list after trim and lower-casing, gets 200 and a
stored session. -/
theorem c9_authenticate_endpoint_witness :
    authenticatePost "a@b.com, X@Y.com" (.ok ⟨"id1", "A@B.com"⟩) (fun _ => none) 42 =
      (200, "Authentication successful",
        storeMCPSession (fun _ => none) "id1" "A@B.com" 42) ∧
    storeMCPSession (fun _ => none) "id1" "A@B.com" 42 ("mcp_session:" ++ "id1") =
      some ⟨"id1", "A@B.com", true, 42⟩ :=
  c9_authenticate_endpoint.1 "a@b.com, X@Y.com" ⟨"id1", "A@B.com"⟩ (fun _ => none) 42
    (by decide)

end TennisWorker

namespace TennisWorker

/-! ### C7 — time normalisation helper lemmas -/

theorem leadsWith_refl (l : List Char) : leadsWith l l = true := by
  induction l with
  | nil => rfl
  | cons c cs ih => simp [leadsWith, ih]

theorem jsIncludes_of_leads (hay sub : List Char) (h : leadsWith sub hay = true) :
    jsIncludes hay sub = true := by
  cases hay <;> simp [jsIncludes, h]

theorem jsIncludes_append_left (pre l sub : List Char) (h : jsIncludes l sub = true) :
    jsIncludes (pre ++ l) sub = true := by
  induction pre with
  | nil => simpa using h
  | cons p ps ih => simp [jsIncludes, ih]

theorem jsIncludes_single_false (l : List Char) (a : Char) (h : ∀ c ∈ l, c ≠ a) :
    jsIncludes l [a] = false := by
  induction l with
  | nil => rfl
  | cons c cs ih =>
    have h1 : c ≠ a := h c (by simp)
    have h2 := ih fun x hx => h x (by simp [hx])
    simp [jsIncludes, leadsWith, h2, beq_iff_eq]
    exact fun hh => absurd hh.symm h1

theorem takeWhile_digits (ds : List Char) (c1 : Char) (rest : List Char)
    (hd : ∀ c ∈ ds, isJsDigit c = true) (h1 : isJsDigit c1 = false) :
    List.takeWhile isJsDigit (ds ++ c1 :: rest) = ds := by
  induction ds with
  | nil => simp [List.takeWhile_cons, h1]
  | cons d ds ih =>
    have hdd := hd d (by simp)
    simp [List.takeWhile_cons, hdd, ih fun c hc => hd c (by simp [hc])]

theorem dropWhile_digits (ds : List Char) (c1 : Char) (rest : List Char)
    (hd : ∀ c ∈ ds, isJsDigit c = true) (h1 : isJsDigit c1 = false) :
    List.dropWhile isJsDigit (ds ++ c1 :: rest) = c1 :: rest := by
  induction ds with
  | nil => simp [List.dropWhile_cons, h1]
  | cons d ds ih =>
    have hdd := hd d (by simp)
    simp [List.dropWhile_cons, hdd, ih fun c hc => hd c (by simp [hc])]

theorem isJsDigit_ne_colon {c : Char} (h : isJsDigit c = true) : c ≠ ':' := by
  intro hh
  subst hh
  exact absurd h (by decide)

theorem jsToUpper_digit {c : Char} (h : isJsDigit c = true) : jsToUpper c = c := by
  have h2 : 48 ≤ c.toNat ∧ c.toNat ≤ 57 := by simpa [isJsDigit] using h
  unfold jsToUpper
  rw [if_neg (by omega)]

theorem replaceTime_digits_ampm (ds : List Char) (c1 c2 : Char) (hne : ds ≠ [])
    (hd : ∀ c ∈ ds, isJsDigit c = true) (hnd1 : isJsDigit c1 = false)
    (hm : matchAmPm [c1, c2] = some ([c1, c2], [])) :
    replaceTime (ds ++ [c1, c2]) = ds ++ ':' :: '0' :: '0' :: ' ' :: [c1, c2] := by
  cases ds with
  | nil => exact absurd rfl hne
  | cons d ds' =>
    have hdd : isJsDigit d = true := hd d (by simp)
    rw [List.cons_append, replaceTime, if_pos hdd, ← List.cons_append,
      dropWhile_digits (d :: ds') c1 [c2] hd hnd1, hm,
      takeWhile_digits (d :: ds') c1 [c2] hd hnd1]
    simp

theorem normalizeTime_digits_ampm (ds : List Char) (c1 c2 : Char) (hne : ds ≠ [])
    (hd : ∀ c ∈ ds, isJsDigit c = true) (hnd1 : isJsDigit c1 = false)
    (hl1 : jsToLower c1 = 'p' ∨ jsToLower c1 = 'a') (hl2 : jsToLower c2 = 'm')
    (hc1 : c1 ≠ ':') (hc2 : c2 ≠ ':') :
    normalizeTime (ds ++ [c1, c2]) =
      ds ++ ':' :: '0' :: '0' :: ' ' :: [jsToUpper c1, jsToUpper c2] := by
  have hm : matchAmPm [c1, c2] = some ([c1, c2], []) := by
    rcases hl1 with h | h <;> simp [matchAmPm, h, hl2]
  have hcolon : jsIncludes (ds ++ [c1, c2]) ([':']) = false := by
    apply jsIncludes_single_false
    intro c hc
    rcases List.mem_append.mp hc with hmem | hmem
    · exact isJsDigit_ne_colon (hd c hmem)
    · simp only [List.mem_cons, List.not_mem_nil, or_false] at hmem
      rcases hmem with rfl | rfl
      · exact hc1
      · exact hc2
  have hsub : jsIncludes ((ds ++ [c1, c2]).map jsToLower)
      ([jsToLower c1, jsToLower c2]) = true := by
    rw [List.map_append]
    exact jsIncludes_append_left _ _ _ (jsIncludes_of_leads _ _ (leadsWith_refl _))
  have hcond : (jsIncludes ((ds ++ [c1, c2]).map jsToLower) ("pm".data)
      || jsIncludes ((ds ++ [c1, c2]).map jsToLower) ("am".data)) = true := by
    rcases hl1 with h | h
    · rw [show ("pm".data : List Char) = [jsToLower c1, jsToLower c2] by rw [h, hl2]]
      rw [Bool.or_eq_true]
      exact Or.inl hsub
    · rw [show ("am".data : List Char) = [jsToLower c1, jsToLower c2] by rw [h, hl2]]
      rw [Bool.or_eq_true]
      exact Or.inr hsub
  have hcondFull : ((jsIncludes ((ds ++ [c1, c2]).map jsToLower) ("pm".data)
      || jsIncludes ((ds ++ [c1, c2]).map jsToLower) ("am".data))
      && !(jsIncludes (ds ++ [c1, c2]) ([':']))) = true := by
    rw [hcolon, hcond]
    rfl
  unfold normalizeTime
  rw [if_pos hcondFull]
  rw [replaceTime_digits_ampm ds c1 c2 hne hd hnd1 hm, List.map_append]
  have hid : ∀ c ∈ ds, jsToUpper c = id c := fun c hc => jsToUpper_digit (hd c hc)
  rw [List.map_congr_left hid, List.map_id]
  simp only [List.map_cons, List.map_nil]
  rw [show jsToUpper ':' = ':' by decide, show jsToUpper '0' = '0' by decide,
    show jsToUpper ' ' = ' ' by decide]

/-- Claim C7: `2pm` normalises to `2:00 PM` and `2:00 PM` is unchanged;
generally any input `<digits><am|pm>` (case-insensitive suffix, no colon)
becomes `<digits>:00 ` followed by the upper-cased suffix (`AM`/`PM`), and
any input containing a colon is returned unchanged. -/
theorem c7_time_normalization :
    (∀ ds c1 c2, ds ≠ [] → (∀ c ∈ ds, isJsDigit c = true) →
        (c1 = 'a' ∨ c1 = 'A' ∨ c1 = 'p' ∨ c1 = 'P') → (c2 = 'm' ∨ c2 = 'M') →
        normalizeTime (ds ++ [c1, c2]) =
          ds ++ ':' :: '0' :: '0' :: ' ' :: [jsToUpper c1, jsToUpper c2] ∧
        (jsToUpper c1 = 'A' ∨ jsToUpper c1 = 'P') ∧ jsToUpper c2 = 'M') ∧
    (∀ s, jsIncludes s ([':']) = true → normalizeTime s = s) ∧
    normalizeTime ("2pm".data) = "2:00 PM".data ∧
    normalizeTime ("2:00 PM".data) = "2:00 PM".data := by
  refine ⟨?_, ?_, by decide, by decide⟩
  · intro ds c1 c2 hne hd h1 h2
    refine ⟨?_, ?_, ?_⟩
    · apply normalizeTime_digits_ampm ds c1 c2 hne hd
      · rcases h1 with rfl | rfl | rfl | rfl <;> decide
      · rcases h1 with rfl | rfl | rfl | rfl
        · exact Or.inr (by decide)
        · exact Or.inr (by decide)
        · exact Or.inl (by decide)
        · exact Or.inl (by decide)
      · rcases h2 with rfl | rfl <;> decide
      · rcases h1 with rfl | rfl | rfl | rfl <;> decide
      · rcases h2 with rfl | rfl <;> decide
    · rcases h1 with rfl | rfl | rfl | rfl
      · exact Or.inl (by decide)
      · exact Or.inl (by decide)
      · exact Or.inr (by decide)
      · exact Or.inr (by decide)
    · rcases h2 with rfl | rfl <;> decide
  · intro s h
    simp [normalizeTime, h]

/-- Witness for C7: the general clause at `2pm`. -/
theorem c7_time_normalization_witness :
    normalizeTime (['2'] ++ ['p', 'm']) =
      ['2'] ++ ':' :: '0' :: '0' :: ' ' :: [jsToUpper 'p', jsToUpper 'm'] ∧
    (jsToUpper 'p' = 'A' ∨ jsToUpper 'p' = 'P') ∧ jsToUpper 'm' = 'M' :=
  c7_time_normalization.1 ['2'] 'p' 'm' (by decide) (by decide)
    (Or.inr (Or.inr (Or.inl rfl))) (Or.inl rfl)

end TennisWorker

namespace TennisWorker

/-! ### C8 — booking history is per-date and scoped to the caller -/

/-- Claim C8: an entry is in the history exactly when one of the last
`days` calendar days has a stored record whose `userEmail` equals the
caller's email; and in the spec's scenario (records for 2025-07-20 by
`a@b.com` and 2025-07-21 by `c@d.com`, today 2025-07-21), a 30-day lookup
for `a@b.com` returns exactly the 2025-07-20 record. -/
theorem c8_history_scoped :
    (∀ (kv : String → Option BookingRecord) (todayN days : Nat) (email : String)
        (e : HistoryEntry),
      e ∈ get_booking_history kv todayN days email ↔
        ∃ i, i < days ∧ ∃ b, kv (bookingKey todayN i) = some b ∧
          b.userEmail = email ∧
          e = ⟨isoDate (fromDays (todayN - i)), b.court, b.time, b.status⟩) ∧
    get_booking_history kvHistory (toDays 2025 7 21) 30 "a@b.com" =
      [⟨"2025-07-20", "DuPont", "8:00 AM", "completed"⟩] := by
  constructor
  · intro kv todayN days email e
    simp only [get_booking_history, List.mem_filterMap, List.mem_range]
    constructor
    · rintro ⟨i, hi, hf⟩
      refine ⟨i, hi, ?_⟩
      cases hkv : kv (bookingKey todayN i) with
      | none => simp [hkv] at hf
      | some b =>
        simp only [hkv] at hf
        by_cases hb : b.userEmail = email
        · simp only [if_pos hb, Option.some.injEq] at hf
          exact ⟨b, rfl, hb, hf.symm⟩
        · simp [if_neg hb] at hf
    · rintro ⟨i, hi, b, hkv, hb, he⟩
      refine ⟨i, hi, ?_⟩
      rw [hkv]
      simp only [if_pos hb]
      rw [he]
  · decide

/-- Witness for C8: the 2025-07-20 record is a member of the 30-day history
for `a@b.com`. -/
theorem c8_history_scoped_witness :
    (⟨"2025-07-20", "DuPont", "8:00 AM", "completed"⟩ : HistoryEntry) ∈
      get_booking_history kvHistory (toDays 2025 7 21) 30 "a@b.com" :=
  (c8_history_scoped.1 kvHistory (toDays 2025 7 21) 30 "a@b.com" _).mpr
    ⟨1, by decide, ⟨"DuPont", "8:00 AM", "2025-07-20", "a@b.com", 1000, "completed"⟩,
      by decide, rfl, by decide⟩

/-! ### C10 — date resolution forces the year through JS Date semantics -/

/-- Claim C10 as stated is false: an explicit `2024-02-29` (year < 2025) is
not rewritten to the same month and day in 2025 — `setFullYear(2025)`
normalises the overflowing Feb 29 to `2025-03-01`. -/
theorem c10_counterexample :
    getCorrectDate ⟨2025, 7, 20⟩ (some "2024-02-29") = some "2025-03-01" ∧
    getCorrectDate ⟨2025, 7, 20⟩ (some "2024-02-29") ≠ some "2025-02-29" := by
  exact ⟨rfl, by decide⟩

/-- Claim C10 (amended): date resolution forces the year through JS `Date`
semantics.  Omitted dates and the case-insensitive literals
`today`/`tomorrow` resolve relative to today with its year set to 2025
(so `tomorrow` from a forced 2025-12-31 is 2026-01-01); an explicit date
with year < 2025 gets its year field set to 2025 with JS field-overflow
normalisation (month/day kept when that day exists in 2025, as in
2023-07-20 ↦ 2025-07-20, while 2024-02-29 ↦ 2025-03-01); an explicit date
with year ≥ 2025 passes through unchanged. -/
theorem c10_date_resolution :
    (∀ t : Ymd, getCorrectDate t (some "ToDaY") = getCorrectDate t (some "today")) ∧
    (∀ t : Ymd, getCorrectDate t (some "TomOrroW") = getCorrectDate t (some "tomorrow")) ∧
    getCorrectDate ⟨2026, 3, 15⟩ none = some "2025-03-16" ∧
    getCorrectDate ⟨2025, 12, 31⟩ none = some "2026-01-01" ∧
    getCorrectDate ⟨2026, 3, 15⟩ (some "today") = some "2025-03-15" ∧
    getCorrectDate ⟨2026, 3, 15⟩ (some "tomorrow") = some "2025-03-16" ∧
    (∀ t : Ymd, getCorrectDate t (some "2023-07-20") = some "2025-07-20") ∧
    (∀ t : Ymd, getCorrectDate t (some "2024-02-29") = some "2025-03-01") ∧
    (∀ t : Ymd, getCorrectDate t (some "2026-01-05") = some "2026-01-05") :=
  ⟨fun _ => rfl, fun _ => rfl, by decide, by decide, by decide, by decide,
    fun _ => rfl, fun _ => rfl, fun _ => rfl⟩

end TennisWorker

namespace TennisWorker.InitModel

/-! ### C2 — helper lemmas on thread-table updates -/

theorem set_get_self {l : List TPhase} {i : Nat} (x : TPhase) (hi : i < l.length) :
    (l.set i x)[i]? = some x := by
  simp [List.getElem?_set, hi]

theorem set_get_other {l : List TPhase} {i j : Nat} (x : TPhase) (h : i ≠ j) :
    (l.set i x)[j]? = l[j]? := by
  simp [List.getElem?_set, h]

theorem set_get_cases {l : List TPhase} {i j : Nat} {x t : TPhase}
    (hi : i < l.length) (h : (l.set i x)[j]? = some t) :
    (i = j ∧ t = x) ∨ (j ≠ i ∧ l[j]? = some t) := by
  by_cases hji : j = i
  · subst hji
    rw [set_get_self x hi] at h
    exact Or.inl ⟨rfl, (Option.some.inj h).symm⟩
  · rw [set_get_other x (fun he => hji he.symm)] at h
    exact Or.inr ⟨hji, h⟩

theorem tAt_lt {s : GState} {i : Nat} {t : TPhase} (h : tAt s i = some t) :
    i < s.threads.length := by
  obtain ⟨h1, _⟩ := List.getElem?_eq_some_iff.mp h
  exact h1

theorem rUpd_self (r : Nat → Option Outcome) (p : Nat) (o : Outcome) :
    rUpd r p o p = some o := by
  simp [rUpd]

theorem rUpd_other (r : Nat → Option Outcome) {p q : Nat} (o : Outcome) (h : q ≠ p) :
    rUpd r p o q = r q := by
  simp [rUpd, h]

/-- The invariant holds in every initial state. -/
theorem inv_mkInit (n now0 : Nat) : Inv (mkInit n now0) := by
  have hstart : ∀ i t, tAt (mkInit n now0) i = some t → t = .start := by
    intro i t h
    simp only [tAt, mkInit, List.getElem?_replicate] at h
    by_cases hi : i < n
    · rw [if_pos hi] at h
      exact (Option.some.inj h).symm
    · rw [if_neg hi] at h
      exact Option.noConfusion h
  refine ⟨?_, ?_, ?_, ?_, ?_, ?_, ?_⟩
  · intro i j ti tj pi pj h1 h2 hr1 hr2
    rw [hstart i ti h1] at hr1
    exact Option.noConfusion hr1
  · constructor
    · intro h
      exact Bool.noConfusion h
    · rintro ⟨k, tk, pk, hk, hrk⟩
      rw [hstart k tk hk] at hrk
      exact Option.noConfusion hrk
  · intro i ti p h1 hr1
    rw [hstart i ti h1] at hr1
    exact Option.noConfusion hr1
  · intro i p o h
    exact absurd (hstart i _ h) (by intro hh; exact TPhase.noConfusion hh)
  · intro p o h
    exact Option.noConfusion h
  · intro i ti p h1 hp
    rw [hstart i ti h1] at hp
    exact Option.noConfusion hp
  · intro p h
    exact Option.noConfusion h

/-- One step preserves the invariant. -/
theorem inv_step {s s' : GState} (hI : Inv s) (hS : Step s s') : Inv s' := by
  cases hS with
  | startJoin i p ht hf hp =>
    have hlen := tAt_lt ht
    refine ⟨?_, ?_, ?_, ?_, ?_, ?_, ?_⟩
    · intro i' j' ti tj pi pj h1 h2 hr1 hr2
      rcases set_get_cases hlen h1 with ⟨rfl, rfl⟩ | ⟨hne1, h1⟩
      · exact Option.noConfusion hr1
      rcases set_get_cases hlen h2 with ⟨rfl, rfl⟩ | ⟨hne2, h2⟩
      · exact Option.noConfusion hr2
      exact hI.excl i' j' ti tj pi pj h1 h2 hr1 hr2
    · constructor
      · intro h
        obtain ⟨k, tk, pk, hk, hrk⟩ := hI.flagIff.mp h
        have hki : k ≠ i := by
          intro he
          subst he
          rw [ht] at hk
          rw [(Option.some.inj hk).symm] at hrk
          exact Option.noConfusion hrk
        exact ⟨k, tk, pk, (set_get_other _ (fun he => hki he.symm)).trans hk, hrk⟩
      · rintro ⟨k, tk, pk, hk, hrk⟩
        rcases set_get_cases hlen hk with ⟨rfl, rfl⟩ | ⟨hne, hk⟩
        · exact Option.noConfusion hrk
        · exact hI.flagIff.mpr ⟨k, tk, pk, hk, hrk⟩
    · intro i' ti p' h1 hr1
      rcases set_get_cases hlen h1 with ⟨rfl, rfl⟩ | ⟨hne, h1⟩
      · exact Option.noConfusion hr1
      · exact hI.runProm i' ti p' h1 hr1
    · intro i' p' o h1
      rcases set_get_cases hlen h1 with ⟨rfl, heq⟩ | ⟨hne, h1⟩
      · exact TPhase.noConfusion heq
      · exact hI.doneRes i' p' o h1
    · exact hI.resLt
    · intro i' ti p' h1 hp'
      rcases set_get_cases hlen h1 with ⟨rfl, rfl⟩ | ⟨hne, h1⟩
      · simp only [promOf] at hp'
        rw [(Option.some.inj hp').symm]
        exact hI.ipLt p hp
      · exact hI.phaseLt i' ti p' h1 hp'
    · exact hI.ipLt
  | startCached i b ht hf hb hfresh =>
    have hlen := tAt_lt ht
    refine ⟨?_, ?_, ?_, ?_, ?_, ?_, ?_⟩
    · intro i' j' ti tj pi pj h1 h2 hr1 hr2
      rcases set_get_cases hlen h1 with ⟨rfl, rfl⟩ | ⟨hne1, h1⟩
      · exact Option.noConfusion hr1
      rcases set_get_cases hlen h2 with ⟨rfl, rfl⟩ | ⟨hne2, h2⟩
      · exact Option.noConfusion hr2
      exact hI.excl i' j' ti tj pi pj h1 h2 hr1 hr2
    · constructor
      · intro h
        obtain ⟨k, tk, pk, hk, hrk⟩ := hI.flagIff.mp h
        have hki : k ≠ i := by
          intro he
          subst he
          rw [ht] at hk
          rw [(Option.some.inj hk).symm] at hrk
          exact Option.noConfusion hrk
        exact ⟨k, tk, pk, (set_get_other _ (fun he => hki he.symm)).trans hk, hrk⟩
      · rintro ⟨k, tk, pk, hk, hrk⟩
        rcases set_get_cases hlen hk with ⟨rfl, rfl⟩ | ⟨hne, hk⟩
        · exact Option.noConfusion hrk
        · exact hI.flagIff.mpr ⟨k, tk, pk, hk, hrk⟩
    · intro i' ti p' h1 hr1
      rcases set_get_cases hlen h1 with ⟨rfl, rfl⟩ | ⟨hne, h1⟩
      · exact Option.noConfusion hr1
      · exact hI.runProm i' ti p' h1 hr1
    · intro i' p' o h1
      rcases set_get_cases hlen h1 with ⟨rfl, heq⟩ | ⟨hne, h1⟩
      · injection heq with heq
        exact Option.noConfusion heq
      · exact hI.doneRes i' p' o h1
    · exact hI.resLt
    · intro i' ti p' h1 hp'
      rcases set_get_cases hlen h1 with ⟨rfl, rfl⟩ | ⟨hne, h1⟩
      · exact Option.noConfusion hp'
      · exact hI.phaseLt i' ti p' h1 hp'
    · exact hI.ipLt
  | startAcquireClose i b ht hf hb hstale =>
    have hlen := tAt_lt ht
    have hno : ∀ k tk pk, tAt s k = some tk → isRunning tk = some pk → False := by
      intro k tk pk hk hrk
      have hflag := hI.flagIff.mpr ⟨k, tk, pk, hk, hrk⟩
      rw [hf] at hflag
      exact Bool.noConfusion hflag
    refine ⟨?_, ?_, ?_, ?_, ?_, ?_, ?_⟩
    · intro i' j' ti tj pi pj h1 h2 hr1 hr2
      rcases set_get_cases hlen h1 with ⟨rfl, rfl⟩ | ⟨hne1, h1⟩
      · rcases set_get_cases hlen h2 with ⟨rfl, rfl⟩ | ⟨hne2, h2⟩
        · rfl
        · exact absurd (hno j' tj pj h2 hr2) (fun h => h)
      · exact absurd (hno i' ti pi h1 hr1) (fun h => h)
    · constructor
      · intro _
        exact ⟨i, .runningClose s.nextId s.now b, s.nextId, set_get_self _ hlen, rfl⟩
      · intro _
        rfl
    · intro i' ti p' h1 hr1
      rcases set_get_cases hlen h1 with ⟨rfl, rfl⟩ | ⟨hne, h1⟩
      · simp only [isRunning] at hr1
        rw [(Option.some.inj hr1).symm]
        refine ⟨rfl, ?_⟩
        cases hres : s.resolved s.nextId with
        | none => rfl
        | some o => exact absurd (hI.resLt _ _ hres) (lt_irrefl _)
      · exact absurd (hno i' ti p' h1 hr1) (fun h => h)
    · intro i' p' o h1
      rcases set_get_cases hlen h1 with ⟨rfl, heq⟩ | ⟨hne, h1⟩
      · exact TPhase.noConfusion heq
      · exact hI.doneRes i' p' o h1
    · intro p' o h
      exact Nat.lt_succ_of_lt (hI.resLt p' o h)
    · intro i' ti p' h1 hp'
      rcases set_get_cases hlen h1 with ⟨rfl, rfl⟩ | ⟨hne, h1⟩
      · simp only [promOf] at hp'
        rw [(Option.some.inj hp').symm]
        exact Nat.lt_succ_self _
      · exact Nat.lt_succ_of_lt (hI.phaseLt i' ti p' h1 hp')
    · intro p' h
      rw [(Option.some.inj h).symm]
      exact Nat.lt_succ_self _
  | startAcquireNew i ht hf hb =>
    have hlen := tAt_lt ht
    have hno : ∀ k tk pk, tAt s k = some tk → isRunning tk = some pk → False := by
      intro k tk pk hk hrk
      have hflag := hI.flagIff.mpr ⟨k, tk, pk, hk, hrk⟩
      rw [hf] at hflag
      exact Bool.noConfusion hflag
    refine ⟨?_, ?_, ?_, ?_, ?_, ?_, ?_⟩
    · intro i' j' ti tj pi pj h1 h2 hr1 hr2
      rcases set_get_cases hlen h1 with ⟨rfl, rfl⟩ | ⟨hne1, h1⟩
      · rcases set_get_cases hlen h2 with ⟨rfl, rfl⟩ | ⟨hne2, h2⟩
        · rfl
        · exact absurd (hno j' tj pj h2 hr2) (fun h => h)
      · exact absurd (hno i' ti pi h1 hr1) (fun h => h)
    · constructor
      · intro _
        exact ⟨i, .runningLaunch s.nextId s.now, s.nextId, set_get_self _ hlen, rfl⟩
      · intro _
        rfl
    · intro i' ti p' h1 hr1
      rcases set_get_cases hlen h1 with ⟨rfl, rfl⟩ | ⟨hne, h1⟩
      · simp only [isRunning] at hr1
        rw [(Option.some.inj hr1).symm]
        refine ⟨rfl, ?_⟩
        cases hres : s.resolved s.nextId with
        | none => rfl
        | some o => exact absurd (hI.resLt _ _ hres) (lt_irrefl _)
      · exact absurd (hno i' ti p' h1 hr1) (fun h => h)
    · intro i' p' o h1
      rcases set_get_cases hlen h1 with ⟨rfl, heq⟩ | ⟨hne, h1⟩
      · exact TPhase.noConfusion heq
      · exact hI.doneRes i' p' o h1
    · intro p' o h
      exact Nat.lt_succ_of_lt (hI.resLt p' o h)
    · intro i' ti p' h1 hp'
      rcases set_get_cases hlen h1 with ⟨rfl, rfl⟩ | ⟨hne, h1⟩
      · simp only [promOf] at hp'
        rw [(Option.some.inj hp').symm]
        exact Nat.lt_succ_self _
      · exact Nat.lt_succ_of_lt (hI.phaseLt i' ti p' h1 hp')
    · intro p' h
      rw [(Option.some.inj h).symm]
      exact Nat.lt_succ_self _
  | closeOk i p t0 b ht =>
    have hlen := tAt_lt ht
    refine ⟨?_, ?_, ?_, ?_, ?_, ?_, ?_⟩
    · intro i' j' ti tj pi pj h1 h2 hr1 hr2
      rcases set_get_cases hlen h1 with ⟨rfl, rfl⟩ | ⟨hne1, h1⟩
      · rcases set_get_cases hlen h2 with ⟨rfl, rfl⟩ | ⟨hne2, h2⟩
        · rfl
        · exact absurd (hI.excl j' i tj (.runningClose p t0 b) pj p h2 ht hr2 rfl)
            (fun hh => hne2 hh)
      · rcases set_get_cases hlen h2 with ⟨rfl, rfl⟩ | ⟨hne2, h2⟩
        · exact absurd (hI.excl i' i ti (.runningClose p t0 b) pi p h1 ht hr1 rfl)
            (fun hh => hne1 hh)
        · exact hI.excl i' j' ti tj pi pj h1 h2 hr1 hr2
    · constructor
      · intro _
        exact ⟨i, .runningLaunch p t0, p, set_get_self _ hlen, rfl⟩
      · rintro ⟨k, tk, pk, hk, hrk⟩
        exact hI.flagIff.mpr ⟨i, .runningClose p t0 b, p, ht, rfl⟩
    · intro i' ti p' h1 hr1
      rcases set_get_cases hlen h1 with ⟨rfl, rfl⟩ | ⟨hne, h1⟩
      · simp only [isRunning] at hr1
        rw [(Option.some.inj hr1).symm]
        exact hI.runProm i (.runningClose p t0 b) p ht rfl
      · exact absurd (hI.excl i' i ti (.runningClose p t0 b) p' p h1 ht hr1 rfl)
          (fun hh => hne hh)
    · intro i' p' o h1
      rcases set_get_cases hlen h1 with ⟨rfl, heq⟩ | ⟨hne, h1⟩
      · exact TPhase.noConfusion heq
      · exact hI.doneRes i' p' o h1
    · exact hI.resLt
    · intro i' ti p' h1 hp'
      rcases set_get_cases hlen h1 with ⟨rfl, rfl⟩ | ⟨hne, h1⟩
      · simp only [promOf] at hp'
        rw [(Option.some.inj hp').symm]
        exact hI.phaseLt i (.runningClose p t0 b) p ht rfl
      · exact hI.phaseLt i' ti p' h1 hp'
    · exact hI.ipLt
  | closeErr i p t0 b e ht =>
    have hlen := tAt_lt ht
    obtain ⟨hip, hresp⟩ := hI.runProm i (.runningClose p t0 b) p ht rfl
    have honly : ∀ k tk pk, tAt s k = some tk → isRunning tk = some pk → k = i :=
      fun k tk pk hk hrk => hI.excl k i tk (.runningClose p t0 b) pk p hk ht hrk rfl
    refine ⟨?_, ?_, ?_, ?_, ?_, ?_, ?_⟩
    · intro i' j' ti tj pi pj h1 h2 hr1 hr2
      rcases set_get_cases hlen h1 with ⟨rfl, rfl⟩ | ⟨hne1, h1⟩
      · exact Option.noConfusion hr1
      · exact absurd (honly i' ti pi h1 hr1) hne1
    · constructor
      · intro h
        exact Bool.noConfusion h
      · rintro ⟨k, tk, pk, hk, hrk⟩
        rcases set_get_cases hlen hk with ⟨rfl, rfl⟩ | ⟨hne, hk⟩
        · exact Option.noConfusion hrk
        · exact absurd (honly k tk pk hk hrk) hne
    · intro i' ti p' h1 hr1
      rcases set_get_cases hlen h1 with ⟨rfl, rfl⟩ | ⟨hne, h1⟩
      · exact Option.noConfusion hr1
      · exact absurd (honly i' ti p' h1 hr1) hne
    · intro i' p' o h1
      rcases set_get_cases hlen h1 with ⟨rfl, heq⟩ | ⟨hne, h1⟩
      · exact TPhase.noConfusion heq
      · have hold := hI.doneRes i' p' o h1
        have hne' : p' ≠ p := by
          intro he
          rw [he, hresp] at hold
          exact Option.noConfusion hold
        exact (rUpd_other s.resolved _ hne').trans hold
    · intro p' o hres2
      by_cases he : p' = p
      · rw [he]
        exact hI.phaseLt i (.runningClose p t0 b) p ht rfl
      · have hres3 : s.resolved p' = some o := (rUpd_other s.resolved _ he).symm.trans hres2
        exact hI.resLt p' o hres3
    · intro i' ti p' h1 hp'
      rcases set_get_cases hlen h1 with ⟨rfl, rfl⟩ | ⟨hne, h1⟩
      · simp only [promOf] at hp'
        rw [(Option.some.inj hp').symm]
        exact hI.phaseLt i (.runningClose p t0 b) p ht rfl
      · exact hI.phaseLt i' ti p' h1 hp'
    · intro p' h
      exact Option.noConfusion h
  | launchOk i p t0 h ht =>
    have hlen := tAt_lt ht
    obtain ⟨hip, hresp⟩ := hI.runProm i (.runningLaunch p t0) p ht rfl
    have honly : ∀ k tk pk, tAt s k = some tk → isRunning tk = some pk → k = i :=
      fun k tk pk hk hrk => hI.excl k i tk (.runningLaunch p t0) pk p hk ht hrk rfl
    refine ⟨?_, ?_, ?_, ?_, ?_, ?_, ?_⟩
    · intro i' j' ti tj pi pj h1 h2 hr1 hr2
      rcases set_get_cases hlen h1 with ⟨rfl, rfl⟩ | ⟨hne1, h1⟩
      · exact Option.noConfusion hr1
      · exact absurd (honly i' ti pi h1 hr1) hne1
    · constructor
      · intro hflag
        exact Bool.noConfusion hflag
      · rintro ⟨k, tk, pk, hk, hrk⟩
        rcases set_get_cases hlen hk with ⟨rfl, rfl⟩ | ⟨hne, hk⟩
        · exact Option.noConfusion hrk
        · exact absurd (honly k tk pk hk hrk) hne
    · intro i' ti p' h1 hr1
      rcases set_get_cases hlen h1 with ⟨rfl, rfl⟩ | ⟨hne, h1⟩
      · exact Option.noConfusion hr1
      · exact absurd (honly i' ti p' h1 hr1) hne
    · intro i' p' o h1
      rcases set_get_cases hlen h1 with ⟨rfl, heq⟩ | ⟨hne, h1⟩
      · exact TPhase.noConfusion heq
      · have hold := hI.doneRes i' p' o h1
        have hne' : p' ≠ p := by
          intro he
          rw [he, hresp] at hold
          exact Option.noConfusion hold
        exact (rUpd_other s.resolved _ hne').trans hold
    · intro p' o hres2
      by_cases he : p' = p
      · rw [he]
        exact hI.phaseLt i (.runningLaunch p t0) p ht rfl
      · have hres3 : s.resolved p' = some o := (rUpd_other s.resolved _ he).symm.trans hres2
        exact hI.resLt p' o hres3
    · intro i' ti p' h1 hp'
      rcases set_get_cases hlen h1 with ⟨rfl, rfl⟩ | ⟨hne, h1⟩
      · simp only [promOf] at hp'
        rw [(Option.some.inj hp').symm]
        exact hI.phaseLt i (.runningLaunch p t0) p ht rfl
      · exact hI.phaseLt i' ti p' h1 hp'
    · intro p' hp'
      exact Option.noConfusion hp'
  | launchErr i p t0 e ht =>
    have hlen := tAt_lt ht
    obtain ⟨hip, hresp⟩ := hI.runProm i (.runningLaunch p t0) p ht rfl
    have honly : ∀ k tk pk, tAt s k = some tk → isRunning tk = some pk → k = i :=
      fun k tk pk hk hrk => hI.excl k i tk (.runningLaunch p t0) pk p hk ht hrk rfl
    refine ⟨?_, ?_, ?_, ?_, ?_, ?_, ?_⟩
    · intro i' j' ti tj pi pj h1 h2 hr1 hr2
      rcases set_get_cases hlen h1 with ⟨rfl, rfl⟩ | ⟨hne1, h1⟩
      · exact Option.noConfusion hr1
      · exact absurd (honly i' ti pi h1 hr1) hne1
    · constructor
      · intro hflag
        exact Bool.noConfusion hflag
      · rintro ⟨k, tk, pk, hk, hrk⟩
        rcases set_get_cases hlen hk with ⟨rfl, rfl⟩ | ⟨hne, hk⟩
        · exact Option.noConfusion hrk
        · exact absurd (honly k tk pk hk hrk) hne
    · intro i' ti p' h1 hr1
      rcases set_get_cases hlen h1 with ⟨rfl, rfl⟩ | ⟨hne, h1⟩
      · exact Option.noConfusion hr1
      · exact absurd (honly i' ti p' h1 hr1) hne
    · intro i' p' o h1
      rcases set_get_cases hlen h1 with ⟨rfl, heq⟩ | ⟨hne, h1⟩
      · exact TPhase.noConfusion heq
      · have hold := hI.doneRes i' p' o h1
        have hne' : p' ≠ p := by
          intro he
          rw [he, hresp] at hold
          exact Option.noConfusion hold
        exact (rUpd_other s.resolved _ hne').trans hold
    · intro p' o hres2
      by_cases he : p' = p
      · rw [he]
        exact hI.phaseLt i (.runningLaunch p t0) p ht rfl
      · have hres3 : s.resolved p' = some o := (rUpd_other s.resolved _ he).symm.trans hres2
        exact hI.resLt p' o hres3
    · intro i' ti p' h1 hp'
      rcases set_get_cases hlen h1 with ⟨rfl, rfl⟩ | ⟨hne, h1⟩
      · simp only [promOf] at hp'
        rw [(Option.some.inj hp').symm]
        exact hI.phaseLt i (.runningLaunch p t0) p ht rfl
      · exact hI.phaseLt i' ti p' h1 hp'
    · intro p' hp'
      exact Option.noConfusion hp'
  | resumeOwn i p o ht hr =>
    have hlen := tAt_lt ht
    refine ⟨?_, ?_, ?_, ?_, ?_, ?_, ?_⟩
    · intro i' j' ti tj pi pj h1 h2 hr1 hr2
      rcases set_get_cases hlen h1 with ⟨rfl, rfl⟩ | ⟨hne1, h1⟩
      · exact Option.noConfusion hr1
      rcases set_get_cases hlen h2 with ⟨rfl, rfl⟩ | ⟨hne2, h2⟩
      · exact Option.noConfusion hr2
      exact hI.excl i' j' ti tj pi pj h1 h2 hr1 hr2
    · constructor
      · intro hflag
        obtain ⟨k, tk, pk, hk, hrk⟩ := hI.flagIff.mp hflag
        have hki : k ≠ i := by
          intro he
          subst he
          rw [ht] at hk
          rw [(Option.some.inj hk).symm] at hrk
          exact Option.noConfusion hrk
        exact ⟨k, tk, pk, (set_get_other _ (fun he => hki he.symm)).trans hk, hrk⟩
      · rintro ⟨k, tk, pk, hk, hrk⟩
        rcases set_get_cases hlen hk with ⟨rfl, rfl⟩ | ⟨hne, hk⟩
        · exact Option.noConfusion hrk
        · exact hI.flagIff.mpr ⟨k, tk, pk, hk, hrk⟩
    · intro i' ti p' h1 hr1
      rcases set_get_cases hlen h1 with ⟨rfl, rfl⟩ | ⟨hne, h1⟩
      · exact Option.noConfusion hr1
      · exact hI.runProm i' ti p' h1 hr1
    · intro i' p' o' h1
      rcases set_get_cases hlen h1 with ⟨rfl, heq⟩ | ⟨hne, h1⟩
      · injection heq with heq
        injection heq with heq
        injection heq with he1 he2
        rw [he1, he2]
        exact hr
      · exact hI.doneRes i' p' o' h1
    · exact hI.resLt
    · intro i' ti p' h1 hp'
      rcases set_get_cases hlen h1 with ⟨rfl, rfl⟩ | ⟨hne, h1⟩
      · simp only [promOf] at hp'
        rw [(Option.some.inj hp').symm]
        exact hI.phaseLt i (.awaitingOwn p) p ht rfl
      · exact hI.phaseLt i' ti p' h1 hp'
    · exact hI.ipLt
  | resumeJoin i p o ht hr =>
    have hlen := tAt_lt ht
    refine ⟨?_, ?_, ?_, ?_, ?_, ?_, ?_⟩
    · intro i' j' ti tj pi pj h1 h2 hr1 hr2
      rcases set_get_cases hlen h1 with ⟨rfl, rfl⟩ | ⟨hne1, h1⟩
      · exact Option.noConfusion hr1
      rcases set_get_cases hlen h2 with ⟨rfl, rfl⟩ | ⟨hne2, h2⟩
      · exact Option.noConfusion hr2
      exact hI.excl i' j' ti tj pi pj h1 h2 hr1 hr2
    · constructor
      · intro hflag
        obtain ⟨k, tk, pk, hk, hrk⟩ := hI.flagIff.mp hflag
        have hki : k ≠ i := by
          intro he
          subst he
          rw [ht] at hk
          rw [(Option.some.inj hk).symm] at hrk
          exact Option.noConfusion hrk
        exact ⟨k, tk, pk, (set_get_other _ (fun he => hki he.symm)).trans hk, hrk⟩
      · rintro ⟨k, tk, pk, hk, hrk⟩
        rcases set_get_cases hlen hk with ⟨rfl, rfl⟩ | ⟨hne, hk⟩
        · exact Option.noConfusion hrk
        · exact hI.flagIff.mpr ⟨k, tk, pk, hk, hrk⟩
    · intro i' ti p' h1 hr1
      rcases set_get_cases hlen h1 with ⟨rfl, rfl⟩ | ⟨hne, h1⟩
      · exact Option.noConfusion hr1
      · exact hI.runProm i' ti p' h1 hr1
    · intro i' p' o' h1
      rcases set_get_cases hlen h1 with ⟨rfl, heq⟩ | ⟨hne, h1⟩
      · injection heq with heq
        injection heq with heq
        injection heq with he1 he2
        rw [he1, he2]
        exact hr
      · exact hI.doneRes i' p' o' h1
    · exact hI.resLt
    · intro i' ti p' h1 hp'
      rcases set_get_cases hlen h1 with ⟨rfl, rfl⟩ | ⟨hne, h1⟩
      · simp only [promOf] at hp'
        rw [(Option.some.inj hp').symm]
        exact hI.phaseLt i (.awaitingJoin p) p ht rfl
      · exact hI.phaseLt i' ti p' h1 hp'
    · exact hI.ipLt
  | tick n hn =>
    exact ⟨hI.excl, hI.flagIff, hI.runProm, hI.doneRes, hI.resLt, hI.phaseLt, hI.ipLt⟩

/-- The invariant holds in every reachable state. -/
theorem inv_reachable {s s' : GState} (h : Reachable s s') (hI : Inv s) : Inv s' := by
  induction h with
  | refl => exact hI
  | tail hab hbc ih => exact inv_step ih hbc

end TennisWorker.InitModel

namespace TennisWorker.InitModel

/-- Claim C2: in every reachable interleaving of overlapping `init()` calls,
at most one caller is inside the acquisition IIFE at any time (no second
concurrent acquisition is ever started), and any two callers that awaited
the same in-flight attempt's promise observe the same outcome — the same
launched handle on success or the same error on failure. -/
theorem c2_single_inflight_acquisition (n now0 : Nat) (s : GState)
    (hr : Reachable (mkInit n now0) s) :
    (∀ i j ti tj pi pj, tAt s i = some ti → tAt s j = some tj →
        isRunning ti = some pi → isRunning tj = some pj → i = j) ∧
    (∀ i j p oi oj, tAt s i = some (.done (some (p, oi))) →
        tAt s j = some (.done (some (p, oj))) → oi = oj) := by
  have hI := inv_reachable hr (inv_mkInit n now0)
  refine ⟨hI.excl, ?_⟩
  intro i j p oi oj hi hj
  have h1 := hI.doneRes i p oi hi
  have h2 := hI.doneRes j p oj hj
  rw [h1] at h2
  exact Option.some.inj h2

/-- The two-caller scenario is reachable: caller 0 starts the acquisition
(promise 0), caller 1 arrives while it is in flight and joins it, the
launch succeeds with handle 7, and both callers resume with that single
outcome. -/
theorem c2_trace : Reachable (mkInit 2 100) sFinal := by
  refine Relation.ReflTransGen.head (Step.startAcquireNew (mkInit 2 100) 0 rfl rfl rfl) ?_
  refine Relation.ReflTransGen.head (Step.startJoin _ 1 0 rfl rfl rfl) ?_
  refine Relation.ReflTransGen.head (Step.launchOk _ 0 0 100 7 rfl) ?_
  refine Relation.ReflTransGen.head (Step.resumeOwn _ 0 0 (.ok 7) rfl rfl) ?_
  refine Relation.ReflTransGen.head (Step.resumeJoin _ 1 0 (.ok 7) rfl rfl) ?_
  exact Relation.ReflTransGen.refl

/-- Witness for C2: at the end of the concrete two-caller trace both
callers are done via promise 0, and the theorem yields that their observed
outcomes coincide (handle 7). -/
theorem c2_single_inflight_acquisition_witness :
    tAt sFinal 0 = some (.done (some (0, .ok 7))) ∧
    tAt sFinal 1 = some (.done (some (0, .ok 7))) ∧
    Outcome.ok 7 = Outcome.ok 7 :=
  ⟨rfl, rfl,
    (c2_single_inflight_acquisition 2 100 sFinal c2_trace).2 0 1 0 (.ok 7) (.ok 7) rfl rfl⟩

end TennisWorker.InitModel
